import Mathlib

/-!
Shallow embedding of the abuse-control pipeline of the llm-gateway repository:
the replay guard (nonce stores), the rate limiter, the quota middleware, the
session message store, the signature engine, and the key derivation. Each
definition is translated from the TypeScript source file named in its doc
comment. JavaScript `Map`/object stores are modelled as association lists
(`List (String × α)`), machine numbers as `Int`/`Nat`, thrown exceptions as
`Option`/`Except`, and mutation as explicit state passing.
-/

set_option linter.unusedVariables false

namespace LLMGateway

/-! ## Association-list model of JS `Map` / plain-object stores -/

/-- Lookup in a JS `Map` modelled as an association list (first match wins). -/
def mapGet {α : Type} : List (String × α) → String → Option α
  | [], _ => none
  | p :: rest, k => if p.1 = k then some p.2 else mapGet rest k

/-- JS `Map.set`: replace the entry for the key if present, else append it. -/
def mapSet {α : Type} : List (String × α) → String → α → List (String × α)
  | [], k, v => [(k, v)]
  | p :: rest, k, v => if p.1 = k then (k, v) :: rest else p :: mapSet rest k v

/-- JS `Map.delete` / `delete obj[k]`: drop every entry for the key. -/
def mapDelete {α : Type} : List (String × α) → String → List (String × α)
  | [], _ => []
  | p :: rest, k => if p.1 = k then mapDelete rest k else p :: mapDelete rest k

/-- JS `Map.has`. -/
def mapHas {α : Type} (l : List (String × α)) (k : String) : Bool :=
  l.any (fun p => p.1 = k)

/-! ## Replay guard (src/src/utils/crypto.ts, lines 138-181)

The in-memory nonce store `usedNonces : Set<string>` is modelled as a
`List String`; `checkNonceWithMemory` returns the boolean result together
with the updated store. -/

/-- `checkNonceWithMemory` (crypto.ts lines 175-181): returns `false` if the
nonce was already recorded, otherwise records it and returns `true`. -/
def checkNonceWithMemory (usedNonces : List String) (nonce : String) :
    Bool × List String :=
  if nonce ∈ usedNonces then (false, usedNonces)
  else (true, nonce :: usedNonces)

/-- The periodic cleanup of crypto.ts lines 142-147: every 5 minutes, if the
in-memory nonce set has grown past 10000 entries it is cleared wholesale. -/
def nonceCleanupSweep (usedNonces : List String) : List String :=
  if usedNonces.length > 10000 then [] else usedNonces

/-- A sequence of consecutive memory-backend `tryConsume` operations. -/
def consumeMemorySeq (s : List String) (ns : List String) : List String :=
  ns.foldl (fun st n => (checkNonceWithMemory st n).2) s

/-- `checkNonceWithRedis` (crypto.ts lines 152-170). The Redis store is a list
of `(key, expiry-time)` pairs; `SET key '1' PX maxAge NX` succeeds (returns
`'OK'`, modelled as `true`) iff no live entry with that key exists, recording
the key with expiry `now + maxAge`. A thrown Redis error (modelled by the
`redisError` flag) is caught and the check fails open, returning `true`. -/
def redisHasLiveKey (st : List (String × Int)) (now : Int) (key : String) : Bool :=
  st.any (fun e => e.1 = key ∧ now < e.2)

def checkNonceWithRedis (redisError : Bool) (st : List (String × Int))
    (now : Int) (nonce : String) (maxAge : Int) : Bool × List (String × Int) :=
  if redisError then (true, st)
  else
    let key := "nonce:" ++ nonce
    if redisHasLiveKey st now key then (false, st)
    else (true, (key, now + maxAge) :: st)

/-- A sequence of Redis-backend `tryConsume` operations; each element of `ops`
is `(redisError, now, nonce, maxAge)`. -/
def consumeRedisSeq (st : List (String × Int)) (ops : List (Bool × Int × String × Int)) :
    List (String × Int) :=
  ops.foldl (fun s o => (checkNonceWithRedis o.1 s o.2.1 o.2.2.1 o.2.2.2).2) st

/-! ## Rate limiter (src/src/middleware/rateLimit.ts) -/

structure RateLimitResult where
  allowed : Bool
  count : Nat
  resetTime : Int
deriving Repr, DecidableEq

/-- One record of the in-memory `RateLimitStore` (rateLimit.ts lines 8-15). -/
structure RateRecord where
  count : Nat
  resetTime : Int
deriving Repr, DecidableEq

/-- `checkRateLimitWithMemory` (rateLimit.ts lines 89-119): create a fresh
record (count 1, reset `now + windowMs`) when the key is absent or its window
has expired (`resetTime < now`); otherwise increment the count and admit iff
`count <= maxRequests`. -/
def checkRateLimitWithMemory (store : List (String × RateRecord)) (now : Int)
    (key : String) (maxRequests : Nat) (windowMs : Int) :
    RateLimitResult × List (String × RateRecord) :=
  match mapGet store key with
  | none =>
    let record : RateRecord := { count := 1, resetTime := now + windowMs }
    ({ allowed := true, count := 1, resetTime := record.resetTime },
      mapSet store key record)
  | some record =>
    if record.resetTime < now then
      let fresh : RateRecord := { count := 1, resetTime := now + windowMs }
      ({ allowed := true, count := 1, resetTime := fresh.resetTime },
        mapSet store key fresh)
    else
      let updated : RateRecord := { count := record.count + 1, resetTime := record.resetTime }
      ({ allowed := decide (updated.count ≤ maxRequests), count := updated.count,
          resetTime := record.resetTime },
        mapSet store key updated)

/-- One entry of the Redis store used by the rate limiter: a counter plus an
optional expiry time (`none` = no TTL set, as after a bare `INCR`). -/
structure RLEntry where
  count : Nat
  expireAt : Option Int
deriving Repr, DecidableEq

/-- A Redis entry is live unless its expiry time has passed. -/
def rlLive (now : Int) (e : RLEntry) : Bool :=
  match e.expireAt with
  | none => true
  | some t => decide (now < t)

/-- Redis `INCR`: expired or missing keys count as absent and are recreated
with no TTL; otherwise the counter is incremented, keeping the TTL. -/
def redisIncr (st : List (String × RLEntry)) (now : Int) (key : String) :
    Nat × List (String × RLEntry) :=
  match mapGet st key with
  | some e =>
    if rlLive now e then
      (e.count + 1, mapSet st key { count := e.count + 1, expireAt := e.expireAt })
    else
      (1, mapSet st key { count := 1, expireAt := none })
  | none => (1, mapSet st key { count := 1, expireAt := none })

/-- Redis `PEXPIRE key ms`. -/
def redisPexpire (st : List (String × RLEntry)) (now : Int) (key : String)
    (ms : Int) : List (String × RLEntry) :=
  match mapGet st key with
  | some e => mapSet st key { count := e.count, expireAt := some (now + ms) }
  | none => st

/-- Redis `PTTL key`: remaining milliseconds, `-1` for a key with no TTL,
`-2` for a missing (or expired) key. -/
def redisPttl (st : List (String × RLEntry)) (now : Int) (key : String) : Int :=
  match mapGet st key with
  | some e =>
    if rlLive now e then
      match e.expireAt with
      | none => -1
      | some t => t - now
    else -2
  | none => -2

/-- `checkRateLimitWithRedis` (rateLimit.ts lines 42-84): `INCR` the window
key, set its TTL on first creation, read the TTL back to compute `resetTime`,
and admit iff `count <= maxRequests`. Any thrown Redis error (the
`redisError` flag) is caught and the check fails open:
`{allowed: true, count: 0, resetTime: now + windowMs}`. -/
def checkRateLimitWithRedis (redisError : Bool) (st : List (String × RLEntry))
    (now : Int) (key : String) (maxRequests : Nat) (windowMs : Int) :
    RateLimitResult × List (String × RLEntry) :=
  if redisError then
    ({ allowed := true, count := 0, resetTime := now + windowMs }, st)
  else
    let windowKey := "ratelimit:" ++ key
    let r1 := redisIncr st now windowKey
    let st2 := if r1.1 = 1 then redisPexpire r1.2 now windowKey windowMs else r1.2
    let ttl := redisPttl st2 now windowKey
    let resetTime := now + (if ttl > 0 then ttl else windowMs)
    ({ allowed := decide (r1.1 ≤ maxRequests), count := r1.1, resetTime := resetTime }, st2)

/-- JS `Math.ceil(num / den)` for integer arguments and positive `den`:
the ceiling of the exact quotient, i.e. `-((-num).fdiv den)`. -/
def jsMathCeilDiv (num den : Int) : Int :=
  -(Int.fdiv (-num) den)

/-- Outcome of an Express middleware: call `next()` or send a JSON rejection. -/
inductive RLOutcome where
  | next : RLOutcome
  | reject (status : Nat) (code : String) (retryAfter : Int) : RLOutcome
deriving Repr, DecidableEq

/-- The response logic of `rateLimitMiddleware` (rateLimit.ts lines 142-162):
on `allowed` continue, otherwise answer 429 / `RATE_LIMIT_EXCEEDED` with
`retryAfter = Math.ceil((resetTime - Date.now()) / 1000)` seconds. -/
def rateLimitRespond (result : RateLimitResult) (now : Int) : RLOutcome :=
  if result.allowed then RLOutcome.next
  else RLOutcome.reject 429 "RATE_LIMIT_EXCEEDED" (jsMathCeilDiv (result.resetTime - now) 1000)

/-- `rateLimitMiddleware` (rateLimit.ts lines 124-164) on the in-memory
backend (Redis unavailable), at the granularity of the already-computed
request key `clientId:path`. -/
def rateLimitMiddlewareMemory (store : List (String × RateRecord)) (now : Int)
    (key : String) (maxRequests : Nat) (windowMs : Int) :
    RLOutcome × List (String × RateRecord) :=
  let r := checkRateLimitWithMemory store now key maxRequests windowMs
  (rateLimitRespond r.1 now, r.2)

/-! ## Quota enforcement (src/unnamed/part_000, costControlMiddleware) -/

/-- `UserQuota` record (part_000): daily/monthly counters with their lazily
computed reset times. -/
structure UserQuota where
  dailyCount : Nat
  dailyResetTime : Int
  monthlyCount : Nat
  monthlyResetTime : Int
deriving Repr, DecidableEq

/-- Outcome of `costControlMiddleware`. -/
inductive CostOutcome where
  | next : CostOutcome
  | reject (status : Nat) (code : String) : CostOutcome
deriving Repr, DecidableEq

/-- Freshly created quota record (part_000 lines 338-346). -/
def freshQuota (now : Int) : UserQuota :=
  { dailyCount := 0, dailyResetTime := now + 24 * 60 * 60 * 1000,
    monthlyCount := 0, monthlyResetTime := now + 30 * 24 * 60 * 60 * 1000 }

/-- The `max_tokens` ceiling test of part_000 line 314,
`if (maxTokens && maxTokens > MAX_TOKENS_PER_REQUEST)`: a missing field and
the falsy value `0` do not trigger it. -/
def tokenLimitTriggered (maxTokens : Option Int) (maxTokensPerRequest : Int) : Bool :=
  match maxTokens with
  | some mt => decide (mt ≠ 0 ∧ maxTokensPerRequest < mt)
  | none => false

/-- `costControlMiddleware` (part_000 lines 305-411) for one request:
token-ceiling check, lazy get-or-create of the caller's quota record, lazy
daily/monthly resets, daily then monthly limit checks (429 rejections), and
finally the optimistic increment of both counters. The second component is
the quota record stored for the caller after the call (`none` if the map was
never touched, i.e. on a token-ceiling rejection with no prior record). -/
def costControlMiddleware (maxTokens : Option Int) (maxTokensPerRequest : Int)
    (storedQuota : Option UserQuota) (now : Int)
    (dailyLimit monthlyLimit : Nat) : CostOutcome × Option UserQuota :=
  if tokenLimitTriggered maxTokens maxTokensPerRequest then
    (CostOutcome.reject 400 "TOKEN_LIMIT_EXCEEDED", storedQuota)
  else
    let q0 := match storedQuota with
      | some q => q
      | none => freshQuota now
    let q1 := if q0.dailyResetTime < now then
        { q0 with dailyCount := 0, dailyResetTime := now + 24 * 60 * 60 * 1000 }
      else q0
    let q2 := if q1.monthlyResetTime < now then
        { q1 with monthlyCount := 0, monthlyResetTime := now + 30 * 24 * 60 * 60 * 1000 }
      else q1
    if q2.dailyCount ≥ dailyLimit then
      (CostOutcome.reject 429 "DAILY_QUOTA_EXCEEDED", some q2)
    else if q2.monthlyCount ≥ monthlyLimit then
      (CostOutcome.reject 429 "MONTHLY_QUOTA_EXCEEDED", some q2)
    else
      (CostOutcome.next,
        some { q2 with dailyCount := q2.dailyCount + 1, monthlyCount := q2.monthlyCount + 1 })

/-! ## Session store (src/src/services/messageStore.ts) -/

/-- The nested `function` object of a `ToolCall` (src/src/types/index.ts). -/
structure ToolCallFunction where
  name : String
  arguments : String
deriving Repr, DecidableEq

/-- `ToolCall` (src/src/types/index.ts lines 21-28). -/
structure ToolCall where
  id : String
  type : String
  function : ToolCallFunction
deriving Repr, DecidableEq

/-- `Message` (src/src/types/index.ts lines 13-18); the role union type is
modelled as a `String`. -/
structure Message where
  role : String
  content : String
  tool_calls : Option (List ToolCall)
  tool_call_id : Option String
deriving Repr, DecidableEq

/-- One stored session (`SessionMessages`, messageStore.ts lines 7-11). -/
structure SessionMessages where
  messages : List Message
  createdAt : Int
  updatedAt : Int
deriving Repr, DecidableEq

/-- `sessionTTL` (messageStore.ts line 26): 24 hours in milliseconds. -/
def sessionTTL : Int := 24 * 60 * 60 * 1000

/-- `MessageStore.getSessionMessages` (messageStore.ts lines 52-67): empty
list for an unknown session; a session idle past `sessionTTL` is deleted on
the spot and the empty list returned; otherwise a copy of the stored message
array is returned and the store is untouched. -/
def getSessionMessages (sessions : List (String × SessionMessages)) (now : Int)
    (sessionId : String) : List Message × List (String × SessionMessages) :=
  match mapGet sessions sessionId with
  | none => ([], sessions)
  | some session =>
    if now - session.updatedAt > sessionTTL then ([], mapDelete sessions sessionId)
    else (session.messages, sessions)

/-- `MessageStore.addMessage` (messageStore.ts lines 74-91). -/
def addMessage (sessions : List (String × SessionMessages)) (now : Int)
    (sessionId : String) (message : Message) : List (String × SessionMessages) :=
  match mapGet sessions sessionId with
  | some session =>
    mapSet sessions sessionId
      { session with messages := session.messages ++ [message], updatedAt := now }
  | none =>
    mapSet sessions sessionId { messages := [message], createdAt := now, updatedAt := now }

/-- `MessageStore.addMessages` (messageStore.ts lines 98-119). -/
def addMessages (sessions : List (String × SessionMessages)) (now : Int)
    (sessionId : String) (messages : List Message) : List (String × SessionMessages) :=
  if messages.isEmpty then sessions
  else
    match mapGet sessions sessionId with
    | some session =>
      mapSet sessions sessionId
        { session with messages := session.messages ++ messages, updatedAt := now }
    | none =>
      mapSet sessions sessionId { messages := messages, createdAt := now, updatedAt := now }

/-- `MessageStore.clearSession` (messageStore.ts lines 126-132). -/
def clearSession (sessions : List (String × SessionMessages)) (sessionId : String) :
    Bool × List (String × SessionMessages) :=
  (mapHas sessions sessionId, mapDelete sessions sessionId)

/-- `MessageStore.cleanupExpiredSessions` (messageStore.ts lines 159-173):
the periodic sweep deleting every session idle past `sessionTTL`. -/
def cleanupExpiredSessions (sessions : List (String × SessionMessages)) (now : Int) :
    List (String × SessionMessages) :=
  sessions.filter (fun p => ¬(now - p.2.updatedAt > sessionTTL))

/-! ## JS string primitives used by the signature engine -/

/-- Decimal digit characters, used to model JS number-to-string conversion. -/
def digitChar : Nat → Char
  | 0 => '0'
  | 1 => '1'
  | 2 => '2'
  | 3 => '3'
  | 4 => '4'
  | 5 => '5'
  | 6 => '6'
  | 7 => '7'
  | 8 => '8'
  | _ => '9'

/-- Decimal digits of a natural number, most significant first. -/
def natDigits (n : Nat) : List Char :=
  if h : n < 10 then [digitChar n]
  else natDigits (n / 10) ++ [digitChar (n % 10)]
termination_by n
decreasing_by
  exact Nat.div_lt_self (by omega) (by omega)

/-- JS template interpolation of an integer-valued number (`${ts}`). -/
def intToStr (i : Int) : String :=
  if i < 0 then String.mk ('-' :: natDigits i.natAbs)
  else String.mk (natDigits i.toNat)

/-- Value of a list of decimal digit characters, accumulated left to right. -/
def digitsVal (l : List Char) : Nat :=
  l.foldl (fun acc c => acc * 10 + (c.toNat - 48)) 0

/-- JS `parseInt(s, 10)`: skip leading whitespace, an optional sign, then
read the longest decimal digit run; `NaN` (modelled as `none`) when that run
is empty. Trailing garbage after the digits is ignored. -/
def jsParseInt (s : String) : Option Int :=
  let l := s.data.dropWhile Char.isWhitespace
  let core := fun (sign : Int) (ds0 : List Char) =>
    let ds := ds0.takeWhile Char.isDigit
    if ds.isEmpty then none else some (sign * (digitsVal ds : Int))
  match l with
  | [] => none
  | c :: rest =>
    if c = '-' then core (-1) rest
    else if c = '+' then core 1 rest
    else core 1 (c :: rest)

/-- JS `String.prototype.split` with a single-character separator, at the
character-list level. `splitChars sep l` is never empty, and
`"".split(sep) = [""]`. -/
def splitChars (sep : Char) : List Char → List (List Char)
  | [] => [[]]
  | c :: cs =>
    match splitChars sep cs with
    | [] => [[]]
    | h :: t => if c = sep then [] :: h :: t else (c :: h) :: t

/-- JS `Array.prototype.join` with a single-character separator, at the
character-list level. -/
def joinChars (sep : Char) : List (List Char) → List Char
  | [] => []
  | [l] => l
  | l :: l2 :: ls => l ++ sep :: joinChars sep (l2 :: ls)

/-- JS `s.split(sep)` for strings. -/
def jsSplit (s : String) (sep : Char) : List String :=
  (splitChars sep s.data).map String.mk

/-- JS `parts.join(sep)` for strings. -/
def jsJoin (sep : Char) (parts : List String) : String :=
  String.mk (joinChars sep (parts.map String.data))

/-! ## Signature engine (src/src/utils/crypto.ts)

The `encrypt`/`decrypt` pair (crypto.ts lines 39-81) wraps the Node crypto
library's AES-256-CBC primitives, which are outside this repository. They
are modelled abstractly: `encrypt` takes the fresh random IV as an explicit
argument and produces an opaque token, `decrypt` recovers the plaintext or
fails (`none` models the thrown error on malformed/corrupt input), and
`decrypt_encrypt` is the cipher round-trip guarantee under the fixed key. -/

structure AESModel where
  encrypt : String → String → String
  decrypt : String → Option String
  decrypt_encrypt : ∀ iv plain, decrypt (encrypt iv plain) = some plain

/-- A concrete `AESModel` instance used to evaluate the verifier on closed
inputs: the token is the plaintext itself. -/
def plainAES : AESModel :=
  { encrypt := fun _ plain => plain
    decrypt := fun token => some token
    decrypt_encrypt := fun _ _ => rfl }

/-- `generateSignatureWithNonce` (crypto.ts lines 190-199): encrypt
`"{ts}:{nonce}:{data}"`. JS truthiness of `timestamp || Date.now()` and
`nonce || crypto.randomBytes(16).toString('hex')`: a missing or zero
timestamp falls back to the current time `now`, a missing or empty nonce
falls back to the freshly generated random hex string `randNonce`. -/
def generateSignatureWithNonce (M : AESModel) (iv : String) (now : Int)
    (randNonce : String) (data : String) (timestamp : Option Int)
    (nonce : Option String) : String :=
  let ts : Int :=
    match timestamp with
    | some t => if t = 0 then now else t
    | none => now
  let nonceValue : String :=
    match nonce with
    | some nv => if nv = "" then randNonce else nv
    | none => randNonce
  M.encrypt iv (intToStr ts ++ ":" ++ nonceValue ++ ":" ++ data)

/-- `verifySignature` (crypto.ts lines 103-136): decrypt, split on `':'`,
reject on fewer than 2 parts, parse the timestamp, rejoin the rest as the
original data, reject on data mismatch, then the freshness check
`age < 0 || age > maxAge`. A `NaN` timestamp (`jsParseInt = none`) makes both
comparisons false, so the age check does not reject. -/
def verifySignature (M : AESModel) (now : Int) (signature data : String)
    (maxAge : Int) : Bool :=
  match M.decrypt signature with
  | none => false
  | some decrypted =>
    let parts := jsSplit decrypted ':'
    if parts.length < 2 then false
    else
      let timestamp := jsParseInt (parts.headD "")
      let originalData := jsJoin ':' (parts.drop 1)
      if originalData ≠ data then false
      else
        let ageReject : Bool :=
          match timestamp with
          | none => false
          | some t => decide (now - t < 0) || decide (now - t > maxAge)
        if ageReject then false else true

structure VerifyResult where
  valid : Bool
  nonce : Option String
deriving Repr, DecidableEq

/-- The nonce-backend state visible to `verifySignatureWithNonce`: whether a
Redis client is connected, whether its next operation throws, its key store,
and the in-memory fallback set. -/
structure NonceEnv where
  redisAvailable : Bool
  redisError : Bool
  redisState : List (String × Int)
  memState : List String
deriving Repr, DecidableEq

/-- The replay-guard delegation block of `verifySignatureWithNonce`
(crypto.ts lines 238-253): consume the nonce through Redis when available,
else through the in-memory set, and succeed iff it was unused. -/
def verifyNonceStep (env : NonceEnv) (now : Int) (nonce : String) (maxAge : Int) :
    VerifyResult × NonceEnv :=
  if env.redisAvailable then
    let r := checkNonceWithRedis env.redisError env.redisState now nonce maxAge
    if r.1 then ({ valid := true, nonce := some nonce }, { env with redisState := r.2 })
    else ({ valid := false, nonce := none }, { env with redisState := r.2 })
  else
    let r := checkNonceWithMemory env.memState nonce
    if r.1 then ({ valid := true, nonce := some nonce }, { env with memState := r.2 })
    else ({ valid := false, nonce := none }, { env with memState := r.2 })

/-- `verifySignatureWithNonce` (crypto.ts lines 208-257): decrypt, split on
`':'`, reject on fewer than 3 parts, recover timestamp / nonce / original
data, reject on data mismatch, apply the freshness check
`age < 0 || age > maxAge` (false on a `NaN` timestamp), then delegate to the
replay guard (`verifyNonceStep`). -/
def verifySignatureWithNonce (M : AESModel) (env : NonceEnv) (now : Int)
    (signature data : String) (maxAge : Int) : VerifyResult × NonceEnv :=
  match M.decrypt signature with
  | none => ({ valid := false, nonce := none }, env)
  | some decrypted =>
    let parts := jsSplit decrypted ':'
    if parts.length < 3 then ({ valid := false, nonce := none }, env)
    else
      let timestamp := jsParseInt (parts.headD "")
      let nonce := (parts.drop 1).headD ""
      let originalData := jsJoin ':' (parts.drop 2)
      if originalData ≠ data then ({ valid := false, nonce := none }, env)
      else
        let ageReject : Bool :=
          match timestamp with
          | none => false
          | some t => decide (now - t < 0) || decide (now - t > maxAge)
        if ageReject then ({ valid := false, nonce := none }, env)
        else verifyNonceStep env now nonce maxAge

/-! ## Key derivation (src/src/utils/crypto.ts, getSecretKey, lines 17-31)

JS strings are sequences of UTF-16 code units; `secretKey.length` counts
code units and `secretKey.slice(0, 32)` cuts by code units, while
`Buffer.from(string)` and `hash.update(string)` re-encode as UTF-8 bytes.
The secret is therefore modelled as a `List Nat` of UTF-16 code units and
the derived key as a `List Nat` of bytes. -/

/-- UTF-8 encoding of a UTF-16 code-unit sequence, as performed by
`Buffer.from(string)`: ASCII → 1 byte, other `< 0x800` → 2 bytes, BMP → 3
bytes, a valid surrogate pair → 4 bytes, and a lone surrogate → the
replacement character U+FFFD (`EF BF BD`). -/
def utf8EncodeUnits : List Nat → List Nat
  | [] => []
  | u :: rest =>
    if u < 0x80 then u :: utf8EncodeUnits rest
    else if u < 0x800 then
      (0xC0 + u / 64) :: (0x80 + u % 64) :: utf8EncodeUnits rest
    else if 0xD800 ≤ u ∧ u ≤ 0xDBFF then
      match rest with
      | u2 :: rest2 =>
        if 0xDC00 ≤ u2 ∧ u2 ≤ 0xDFFF then
          (0xF0 + (0x10000 + (u - 0xD800) * 0x400 + (u2 - 0xDC00)) / 0x40000) ::
            (0x80 + (0x10000 + (u - 0xD800) * 0x400 + (u2 - 0xDC00)) / 0x1000 % 64) ::
            (0x80 + (0x10000 + (u - 0xD800) * 0x400 + (u2 - 0xDC00)) / 64 % 64) ::
            (0x80 + (0x10000 + (u - 0xD800) * 0x400 + (u2 - 0xDC00)) % 64) ::
            utf8EncodeUnits rest2
        else 0xEF :: 0xBF :: 0xBD :: utf8EncodeUnits (u2 :: rest2)
      | [] => [0xEF, 0xBF, 0xBD]
    else if 0xDC00 ≤ u ∧ u ≤ 0xDFFF then
      0xEF :: 0xBF :: 0xBD :: utf8EncodeUnits rest
    else
      (0xE0 + u / 0x1000) :: (0x80 + u / 64 % 64) :: (0x80 + u % 64) :: utf8EncodeUnits rest

/-- `getSecretKey` (crypto.ts lines 17-31), parameterized over the SHA-256
digest function (a Node crypto library primitive, modelled abstractly as a
byte-list function). A missing or empty (falsy) `AES_SECRET_KEY` throws;
a secret shorter than 32 code units is replaced by the SHA-256 digest of its
UTF-8 bytes; otherwise `Buffer.from(secretKey.slice(0, 32))` re-encodes the
first 32 code units as UTF-8 bytes. -/
def getSecretKey (sha256 : List Nat → List Nat) (secretKey : Option (List Nat)) :
    Except String (List Nat) :=
  match secretKey with
  | none => Except.error "AES_SECRET_KEY not set"
  | some units =>
    if units.isEmpty then Except.error "AES_SECRET_KEY not set"
    else if units.length < 32 then Except.ok (sha256 (utf8EncodeUnits units))
    else Except.ok (utf8EncodeUnits (units.take 32))

/-! ## Helper lemmas on the association-list store model -/

theorem mapGet_set_self {α : Type} (l : List (String × α)) (k : String) (v : α) :
    mapGet (mapSet l k v) k = some v := by
  induction l with
  | nil => simp [mapSet, mapGet]
  | cons p rest ih =>
    by_cases h : p.1 = k
    · simp [mapSet, h, mapGet]
    · simp [mapSet, h, mapGet, ih]

theorem mapGet_set_ne {α : Type} (l : List (String × α)) (k k2 : String) (v : α)
    (h : k2 ≠ k) : mapGet (mapSet l k v) k2 = mapGet l k2 := by
  have hk : ¬(k = k2) := fun he => h he.symm
  induction l with
  | nil => simp [mapSet, mapGet, hk]
  | cons p rest ih =>
    by_cases hp : p.1 = k
    · have hp2 : ¬(p.1 = k2) := by rw [hp]; exact hk
      simp [mapSet, hp, mapGet, hk, hp2]
    · simp [mapSet, hp, mapGet, ih]

theorem mapGet_delete_self {α : Type} (l : List (String × α)) (k : String) :
    mapGet (mapDelete l k) k = none := by
  induction l with
  | nil => simp [mapDelete, mapGet]
  | cons p rest ih =>
    by_cases h : p.1 = k
    · simpa [mapDelete, h] using ih
    · simpa [mapDelete, mapGet, h] using ih

theorem mapGet_delete_ne {α : Type} (l : List (String × α)) (k k2 : String)
    (h : k2 ≠ k) : mapGet (mapDelete l k) k2 = mapGet l k2 := by
  induction l with
  | nil => simp [mapDelete, mapGet]
  | cons p rest ih =>
    by_cases hp : p.1 = k
    · have hne : ¬(p.1 = k2) := by rw [hp]; exact fun he => h he.symm
      rw [show mapDelete (p :: rest) k = mapDelete rest k from by simp [mapDelete, hp],
        ih, show mapGet (p :: rest) k2 = mapGet rest k2 from by simp [mapGet, hne]]
    · rw [show mapDelete (p :: rest) k = p :: mapDelete rest k from by simp [mapDelete, hp]]
      by_cases hk2 : p.1 = k2
      · simp [mapGet, hk2]
      · simp [mapGet, hk2, ih]

theorem mapGet_filter_of_get {α : Type} (l : List (String × α))
    (q : String × α → Bool) (k : String) (v : α)
    (hget : mapGet l k = some v) (hq : q (k, v) = true) :
    mapGet (l.filter q) k = some v := by
  induction l with
  | nil => simp [mapGet] at hget
  | cons p rest ih =>
    by_cases h : p.1 = k
    · have hv : p.2 = v := by
        simpa [mapGet, h] using hget
      have hp : p = (k, v) := by
        cases p; simp_all
      simp [hp, hq, mapGet]
    · have hget2 : mapGet rest k = some v := by
        simpa [mapGet, h] using hget
      cases hqp : q p with
      | true => simp [hqp, mapGet, h, ih hget2]
      | false => simp [hqp, ih hget2]

/-! ## Replay-guard lemmas -/

theorem checkNonceWithMemory_true_iff (s : List String) (n : String) :
    (checkNonceWithMemory s n).1 = true ↔ n ∉ s := by
  by_cases h : n ∈ s <;> simp [checkNonceWithMemory, h]

theorem checkNonceWithMemory_snd_of_true (s s2 : List String) (n : String)
    (h : checkNonceWithMemory s n = (true, s2)) : s2 = n :: s := by
  by_cases hm : n ∈ s <;> simp [checkNonceWithMemory, hm] at h
  exact h.symm

theorem mem_consumeMemorySeq (a : String) (ns : List String) :
    ∀ s : List String, a ∈ s → a ∈ consumeMemorySeq s ns := by
  induction ns with
  | nil => intro s hs; simpa [consumeMemorySeq] using hs
  | cons n rest ih =>
    intro s hs
    have hstep : a ∈ (checkNonceWithMemory s n).2 := by
      by_cases h : n ∈ s <;> simp [checkNonceWithMemory, h, hs]
    simpa [consumeMemorySeq] using ih _ hstep

theorem checkNonceWithRedis_snd_of_true (st st2 : List (String × Int))
    (t0 : Int) (n : String) (maxAge : Int)
    (h : checkNonceWithRedis false st t0 n maxAge = (true, st2)) :
    st2 = ("nonce:" ++ n, t0 + maxAge) :: st := by
  by_cases hl : redisHasLiveKey st t0 ("nonce:" ++ n) = true
  · simp [checkNonceWithRedis, hl] at h
  · have hl2 : redisHasLiveKey st t0 ("nonce:" ++ n) = false := by
      cases hx : redisHasLiveKey st t0 ("nonce:" ++ n) <;> simp_all
    rw [show checkNonceWithRedis false st t0 n maxAge
          = (true, ("nonce:" ++ n, t0 + maxAge) :: st) from by
        simp [checkNonceWithRedis, hl2]] at h
    injection h with h1 h2
    exact h2.symm

theorem mem_consumeRedisSeq (e : String × Int) (ops : List (Bool × Int × String × Int)) :
    ∀ st : List (String × Int), e ∈ st → e ∈ consumeRedisSeq st ops := by
  induction ops with
  | nil => intro st hs; simpa [consumeRedisSeq] using hs
  | cons o rest ih =>
    intro st hs
    have hstep : e ∈ (checkNonceWithRedis o.1 st o.2.1 o.2.2.1 o.2.2.2).2 := by
      rcases o with ⟨err, t, n, ma⟩
      cases err
      · by_cases hl : redisHasLiveKey st t ("nonce:" ++ n) = true
        · simpa [checkNonceWithRedis, hl] using hs
        · have hl2 : redisHasLiveKey st t ("nonce:" ++ n) = false := by
            cases hx : redisHasLiveKey st t ("nonce:" ++ n) <;> simp_all
          simp only [checkNonceWithRedis, hl2]
          simp [hs]
      · simpa [checkNonceWithRedis] using hs
    simpa [consumeRedisSeq] using ih _ hstep

theorem redisHasLiveKey_of_mem (st : List (String × Int)) (now : Int)
    (key : String) (x : Int) (hm : (key, x) ∈ st) (hx : now < x) :
    redisHasLiveKey st now key = true := by
  simp only [redisHasLiveKey, List.any_eq_true]
  exact ⟨(key, x), hm, by simp [hx]⟩

/-! ## C1 -/

/-- C1 (amended): at-most-once nonce consumption holds between wholesale
clears of the in-memory store, and, error-free, on the Redis SET-NX path
within the nonce's TTL. (a) In-memory backend: once a `checkNonceWithMemory`
call has returned `true` for nonce `N`, every later call for `N` after any
sequence of further consume operations returns `false`. (b) Redis backend:
once an error-free `checkNonceWithRedis` call at time `t0` returned `true`
for `N` with TTL `maxAge`, every later error-free call at a time
`t < t0 + maxAge`, after any sequence of further operations, returns
`false`. -/
theorem tryConsume_at_most_once_between_sweeps :
    (∀ (s s2 : List String) (N : String), checkNonceWithMemory s N = (true, s2) →
       ∀ ns : List String, (checkNonceWithMemory (consumeMemorySeq s2 ns) N).1 = false) ∧
    (∀ (st st2 : List (String × Int)) (N : String) (t0 maxAge : Int),
       checkNonceWithRedis false st t0 N maxAge = (true, st2) →
       ∀ (ops : List (Bool × Int × String × Int)) (t maxAge2 : Int), t < t0 + maxAge →
         (checkNonceWithRedis false (consumeRedisSeq st2 ops) t N maxAge2).1 = false) := by
  constructor
  · intro s s2 N h ns
    have hs2 : s2 = N :: s := checkNonceWithMemory_snd_of_true s s2 N h
    have hmem : N ∈ consumeMemorySeq s2 ns :=
      mem_consumeMemorySeq N ns s2 (by simp [hs2])
    simp [checkNonceWithMemory, hmem]
  · intro st st2 N t0 maxAge h ops t maxAge2 ht
    have hst2 : st2 = ("nonce:" ++ N, t0 + maxAge) :: st :=
      checkNonceWithRedis_snd_of_true st st2 t0 N maxAge h
    have hmem : ("nonce:" ++ N, t0 + maxAge) ∈ consumeRedisSeq st2 ops :=
      mem_consumeRedisSeq _ ops st2 (by simp [hst2])
    have hlive : redisHasLiveKey (consumeRedisSeq st2 ops) t ("nonce:" ++ N) = true :=
      redisHasLiveKey_of_mem _ t _ _ hmem ht
    simp [checkNonceWithRedis, hlive]

/-- Witness for C1 (amended): both conjuncts applied at concrete inputs. -/
theorem tryConsume_at_most_once_between_sweeps_witness :
    (checkNonceWithMemory (consumeMemorySeq ["a"] ["b"]) "a").1 = false ∧
    (checkNonceWithRedis false (consumeRedisSeq [("nonce:n", 300000)] []) 100 "n" 5).1 = false :=
  ⟨tryConsume_at_most_once_between_sweeps.1 [] ["a"] "a" (by decide) ["b"],
   tryConsume_at_most_once_between_sweeps.2 [] [("nonce:n", 300000)] "n" 0 300000 (by decide)
     [] 100 5 (by decide)⟩

/-- A state of the in-memory nonce store holding 10001 distinct nonces, none
of them equal to `"N"`. -/
def sweepCexState : List String :=
  (List.range 10001).map (fun i => String.mk ('x' :: natDigits i))

/-- Counterexample to C1 as stated: two `checkNonceWithMemory` calls for the
same nonce `"N"` both return `true` when the periodic cleanup (which clears
the whole set once it exceeds 10000 entries) runs between them, so the
at-most-once property fails within the nonce's TTL. -/
theorem tryConsume_two_trues_after_sweep_clear :
    (checkNonceWithMemory sweepCexState "N").1 = true ∧
    (checkNonceWithMemory
        (nonceCleanupSweep (checkNonceWithMemory sweepCexState "N").2) "N").1 = true := by
  have hnot : "N" ∉ sweepCexState := by
    intro h
    simp only [sweepCexState, List.mem_map] at h
    obtain ⟨i, _, heq⟩ := h
    have hdata : 'x' :: natDigits i = ['N'] := congrArg String.data heq
    have hx : ('x' : Char) = 'N' := (List.cons_eq_cons.mp hdata).1
    exact absurd hx (by decide)
  have hlen : sweepCexState.length = 10001 := by
    simp [sweepCexState]
  constructor
  · simp [checkNonceWithMemory, hnot]
  · have hsnd : (checkNonceWithMemory sweepCexState "N").2 = "N" :: sweepCexState := by
      simp [checkNonceWithMemory, hnot]
    rw [hsnd]
    have : nonceCleanupSweep ("N" :: sweepCexState) = [] := by
      simp [nonceCleanupSweep, hlen]
    rw [this]
    simp [checkNonceWithMemory]

/-! ## C4 -/

/-- C4: on a thrown Redis error, `checkNonceWithRedis` fails open (nonce
treated as unused, store untouched), and `checkRateLimitWithRedis` fails
open (`allowed = true`, count 0, reset a full window away, store
untouched). -/
theorem shared_store_fail_open :
    (∀ (st : List (String × Int)) (now : Int) (nonce : String) (maxAge : Int),
       checkNonceWithRedis true st now nonce maxAge = (true, st)) ∧
    (∀ (st : List (String × RLEntry)) (now : Int) (key : String)
       (maxRequests : Nat) (windowMs : Int),
       checkRateLimitWithRedis true st now key maxRequests windowMs
         = ({ allowed := true, count := 0, resetTime := now + windowMs }, st)) := by
  exact ⟨fun _ _ _ _ => rfl, fun _ _ _ _ _ => rfl⟩

/-! ## C6 -/

/-- C6: a caller whose stored daily counter has reached the daily limit and
whose reset times have not yet passed is rejected with 429 /
`DAILY_QUOTA_EXCEEDED` regardless of the monthly counter, and the stored
quota record is unchanged (neither counter is incremented). -/
theorem daily_quota_precedence (maxTokens : Option Int) (cap : Int)
    (q : UserQuota) (now : Int) (dailyLimit monthlyLimit : Nat)
    (htok : tokenLimitTriggered maxTokens cap = false)
    (hdaily : dailyLimit ≤ q.dailyCount)
    (hdr : now ≤ q.dailyResetTime) (hmr : now ≤ q.monthlyResetTime) :
    costControlMiddleware maxTokens cap (some q) now dailyLimit monthlyLimit
      = (CostOutcome.reject 429 "DAILY_QUOTA_EXCEEDED", some q) := by
  have h1 : ¬(q.dailyResetTime < now) := by omega
  have h2 : ¬(q.monthlyResetTime < now) := by omega
  simp [costControlMiddleware, htok, h1, h2, hdaily]

/-- Witness for C6 at a concrete quota record with monthly headroom. -/
theorem daily_quota_precedence_witness :
    costControlMiddleware none 4000
        (some { dailyCount := 100, dailyResetTime := 500,
                monthlyCount := 5, monthlyResetTime := 600 }) 10 100 2000
      = (CostOutcome.reject 429 "DAILY_QUOTA_EXCEEDED",
         some { dailyCount := 100, dailyResetTime := 500,
                monthlyCount := 5, monthlyResetTime := 600 }) :=
  daily_quota_precedence none 4000 _ 10 100 2000 (by decide) (by decide) (by decide) (by decide)

/-! ## C7 -/

/-- C7: session read semantics. (a) Reading an unknown session id returns the
empty list and leaves the store unchanged; (b) reading a session idle past
the TTL returns the empty list; (c) reading a live session returns exactly
the stored messages and leaves the store unchanged (the source returns a
fresh copy of the array; in this pure model that is expressed by the read
not modifying the stored record); (d) round-trip: appending `[m1]` then
`[m2]` to a fresh session id and reading it back (within the TTL of the last
write) yields exactly `[m1, m2]` in insertion order. -/
theorem session_read_semantics :
    (∀ (store : List (String × SessionMessages)) (sid : String) (now : Int),
       mapGet store sid = none → getSessionMessages store now sid = ([], store)) ∧
    (∀ (store : List (String × SessionMessages)) (sid : String) (now : Int)
       (s : SessionMessages), mapGet store sid = some s →
       sessionTTL < now - s.updatedAt → (getSessionMessages store now sid).1 = []) ∧
    (∀ (store : List (String × SessionMessages)) (sid : String) (now : Int)
       (s : SessionMessages), mapGet store sid = some s →
       now - s.updatedAt ≤ sessionTTL →
       getSessionMessages store now sid = (s.messages, store)) ∧
    (∀ (store : List (String × SessionMessages)) (sid : String) (t1 t2 t3 : Int)
       (m1 m2 : Message), mapGet store sid = none → t3 - t2 ≤ sessionTTL →
       (getSessionMessages (addMessages (addMessages store t1 sid [m1]) t2 sid [m2])
           t3 sid).1 = [m1, m2]) := by
  refine ⟨?_, ?_, ?_, ?_⟩
  · intro store sid now h
    simp [getSessionMessages, h]
  · intro store sid now s h hexp
    simp [getSessionMessages, h, hexp]
  · intro store sid now s h hlive
    simp [getSessionMessages, h]
    intro hc
    exact absurd hc (by omega)
  · intro store sid t1 t2 t3 m1 m2 h0 hfresh
    have e1 : addMessages store t1 sid [m1]
        = mapSet store sid { messages := [m1], createdAt := t1, updatedAt := t1 } := by
      simp [addMessages, h0]
    have e2 : addMessages (mapSet store sid
          { messages := [m1], createdAt := t1, updatedAt := t1 }) t2 sid [m2]
        = mapSet (mapSet store sid { messages := [m1], createdAt := t1, updatedAt := t1 })
            sid { messages := [m1, m2], createdAt := t1, updatedAt := t2 } := by
      simp [addMessages, mapGet_set_self]
    rw [e1, e2]
    simp [getSessionMessages, mapGet_set_self]
    rw [if_neg (by omega)]

/-- Witness for C7: round-trip at a concrete store, session id and pair of
messages. -/
theorem session_read_semantics_witness :
    (getSessionMessages
        (addMessages (addMessages [] 0 "s"
            [{ role := "user", content := "hi", tool_calls := none, tool_call_id := none }])
          1 "s"
            [{ role := "assistant", content := "ok", tool_calls := none, tool_call_id := none }])
        2 "s").1
      = [{ role := "user", content := "hi", tool_calls := none, tool_call_id := none },
         { role := "assistant", content := "ok", tool_calls := none, tool_call_id := none }] :=
  session_read_semantics.2.2.2 [] "s" 0 1 2 _ _ (by decide) (by decide)

/-! ## C8 -/

/-- C8 (amended): how sessions are removed from the store. Appending messages
(`addMessage`/`addMessages`) never removes any session; `getSessionMessages`
removes a session only when it is the one being read and it is idle past the
TTL; the periodic sweep `cleanupExpiredSessions` keeps every session that is
not idle past the TTL; and `clearSession` — an operation the original claim
overlooks — removes the named session unconditionally. -/
theorem session_removal_characterization :
    (∀ (store : List (String × SessionMessages)) (now : Int) (sid : String)
       (msgs : List Message) (k : String) (s : SessionMessages),
       mapGet store k = some s →
       ∃ s2, mapGet (addMessages store now sid msgs) k = some s2) ∧
    (∀ (store : List (String × SessionMessages)) (now : Int) (sid : String)
       (msg : Message) (k : String) (s : SessionMessages),
       mapGet store k = some s →
       ∃ s2, mapGet (addMessage store now sid msg) k = some s2) ∧
    (∀ (store : List (String × SessionMessages)) (now : Int) (sid k : String)
       (s : SessionMessages), mapGet store k = some s →
       (k = sid → now - s.updatedAt ≤ sessionTTL) →
       ∃ s2, mapGet ((getSessionMessages store now sid).2) k = some s2) ∧
    (∀ (store : List (String × SessionMessages)) (now : Int) (k : String)
       (s : SessionMessages), mapGet store k = some s →
       now - s.updatedAt ≤ sessionTTL →
       mapGet (cleanupExpiredSessions store now) k = some s) ∧
    (∀ (store : List (String × SessionMessages)) (sid : String),
       mapGet ((clearSession store sid).2) sid = none) := by
  refine ⟨?_, ?_, ?_, ?_, ?_⟩
  · intro store now sid msgs k s h
    by_cases hempty : msgs.isEmpty
    · exact ⟨s, by simpa [addMessages, hempty] using h⟩
    · by_cases hk : k = sid
      · subst hk
        rw [show addMessages store now k msgs
              = (match mapGet store k with
                 | some session => mapSet store k
                     { session with messages := session.messages ++ msgs, updatedAt := now }
                 | none => mapSet store k
                     { messages := msgs, createdAt := now, updatedAt := now })
            from by simp [addMessages, hempty]]
        rw [h]
        exact ⟨_, mapGet_set_self _ _ _⟩
      · cases hget : mapGet store sid with
        | none =>
          refine ⟨s, ?_⟩
          rw [show addMessages store now sid msgs
                = mapSet store sid { messages := msgs, createdAt := now, updatedAt := now }
              from by simp [addMessages, hempty, hget]]
          rw [mapGet_set_ne _ _ _ _ hk]
          exact h
        | some session =>
          refine ⟨s, ?_⟩
          rw [show addMessages store now sid msgs
                = mapSet store sid
                    { session with messages := session.messages ++ msgs, updatedAt := now }
              from by simp [addMessages, hempty, hget]]
          rw [mapGet_set_ne _ _ _ _ hk]
          exact h
  · intro store now sid msg k s h
    by_cases hk : k = sid
    · subst hk
      rw [show addMessage store now k msg
            = (match mapGet store k with
               | some session => mapSet store k
                   { session with messages := session.messages ++ [msg], updatedAt := now }
               | none => mapSet store k
                   { messages := [msg], createdAt := now, updatedAt := now })
          from by simp [addMessage]]
      rw [h]
      exact ⟨_, mapGet_set_self _ _ _⟩
    · cases hget : mapGet store sid with
      | none =>
        refine ⟨s, ?_⟩
        rw [show addMessage store now sid msg
              = mapSet store sid { messages := [msg], createdAt := now, updatedAt := now }
            from by simp [addMessage, hget]]
        rw [mapGet_set_ne _ _ _ _ hk]
        exact h
      | some session =>
        refine ⟨s, ?_⟩
        rw [show addMessage store now sid msg
              = mapSet store sid
                  { session with messages := session.messages ++ [msg], updatedAt := now }
            from by simp [addMessage, hget]]
        rw [mapGet_set_ne _ _ _ _ hk]
        exact h
  · intro store now sid k s h hcond
    cases hget : mapGet store sid with
    | none => exact ⟨s, by simpa [getSessionMessages, hget] using h⟩
    | some session =>
      by_cases hk : k = sid
      · subst hk
        have hss : session = s := by
          rw [h] at hget
          injection hget with he
          exact he.symm
        subst hss
        have hlive : ¬(now - session.updatedAt > sessionTTL) := by
          have := hcond rfl; omega
        exact ⟨session, by simp [getSessionMessages, hget, hlive, h]⟩
      · by_cases hexp : now - session.updatedAt > sessionTTL
        · refine ⟨s, ?_⟩
          rw [show (getSessionMessages store now sid).2 = mapDelete store sid from by
            simp [getSessionMessages, hget, hexp]]
          rw [mapGet_delete_ne _ _ _ hk]
          exact h
        · exact ⟨s, by simpa [getSessionMessages, hget, hexp] using h⟩
  · intro store now k s h hlive
    have hfilter : mapDelete store "" = mapDelete store "" := rfl
    have : cleanupExpiredSessions store now
        = store.filter (fun p => ¬(now - p.2.updatedAt > sessionTTL)) := rfl
    rw [this]
    exact mapGet_filter_of_get store _ k s h (by simp; omega)
  · intro store sid
    exact mapGet_delete_self store sid

/-- Witness for C8 (amended): appending to one session preserves another,
and `clearSession` removes the named session. -/
theorem session_removal_characterization_witness :
    (∃ s2, mapGet (addMessages
        [("a", { messages := [], createdAt := 0, updatedAt := 0 })] 5 "b"
        [{ role := "user", content := "x", tool_calls := none, tool_call_id := none }])
        "a" = some s2) ∧
    mapGet ((clearSession
        [("a", { messages := [], createdAt := 0, updatedAt := 0 })] "a").2) "a" = none :=
  ⟨session_removal_characterization.1
      [("a", { messages := [], createdAt := 0, updatedAt := 0 })] 5 "b"
      [{ role := "user", content := "x", tool_calls := none, tool_call_id := none }] "a"
      { messages := [], createdAt := 0, updatedAt := 0 } (by decide),
   session_removal_characterization.2.2.2.2
      [("a", { messages := [], createdAt := 0, updatedAt := 0 })] "a"⟩

/-- Counterexample to C8 as stated: the eviction sweep is not the only
operation that removes sessions. `clearSession` deletes a live session
outright, and `getSessionMessages` itself deletes an expired session when it
is read. -/
theorem clearSession_removes_live_session :
    clearSession [("s1", { messages := [], createdAt := 0, updatedAt := 0 })] "s1"
      = (true, []) ∧
    getSessionMessages [("s1", { messages := [], createdAt := 0, updatedAt := 0 })]
        (sessionTTL + 1) "s1"
      = ([], []) := by
  constructor
  · rfl
  · simp [getSessionMessages, mapGet, sessionTTL, mapDelete]

/-! ## C5 -/

theorem jsMathCeilDiv_pos (a : Int) (ha : 1 ≤ a) : 0 < jsMathCeilDiv a 1000 := by
  obtain ⟨n, rfl⟩ : ∃ n : Nat, a = (n : Int) + 1 := ⟨(a - 1).toNat, by omega⟩
  have hneg : -((n : Int) + 1) = Int.negSucc n := (Int.negSucc_eq n).symm
  unfold jsMathCeilDiv
  rw [hneg, show Int.fdiv (Int.negSucc n) 1000 = Int.negSucc (n / 1000) from rfl,
    Int.negSucc_eq]
  omega

/-- C5: fixed-window rate limiting with `maxRequests = 3`,
`windowMs = 60000`. For requests on a fresh key at times
`t1 ≤ t2 ≤ t3 ≤ t4` strictly inside the window opened at `t1`, the first
three are admitted with counts 1, 2, 3; the fourth is rejected by the
middleware with HTTP 429, code `RATE_LIMIT_EXCEEDED` and a strictly positive
`retryAfter`; and a fifth request after the window has elapsed
(`t1 + 60000 < t5`) is admitted again with count 1. -/
theorem fixed_window_rate_limit (store : List (String × RateRecord)) (key : String)
    (t1 t2 t3 t4 t5 : Int)
    (r1 r2 r3 r4 r5 : RateLimitResult × List (String × RateRecord))
    (h0 : mapGet store key = none)
    (e1 : r1 = checkRateLimitWithMemory store t1 key 3 60000)
    (e2 : r2 = checkRateLimitWithMemory r1.2 t2 key 3 60000)
    (e3 : r3 = checkRateLimitWithMemory r2.2 t3 key 3 60000)
    (e4 : r4 = checkRateLimitWithMemory r3.2 t4 key 3 60000)
    (e5 : r5 = checkRateLimitWithMemory r4.2 t5 key 3 60000)
    (h12 : t1 ≤ t2) (h23 : t2 ≤ t3) (h34 : t3 ≤ t4)
    (h4 : t4 < t1 + 60000) (h5 : t1 + 60000 < t5) :
    (r1.1.allowed = true ∧ r1.1.count = 1) ∧
    (r2.1.allowed = true ∧ r2.1.count = 2) ∧
    (r3.1.allowed = true ∧ r3.1.count = 3) ∧
    (r4.1.allowed = false ∧
      rateLimitRespond r4.1 t4
        = RLOutcome.reject 429 "RATE_LIMIT_EXCEEDED" (jsMathCeilDiv (t1 + 60000 - t4) 1000) ∧
      0 < jsMathCeilDiv (t1 + 60000 - t4) 1000) ∧
    (r5.1.allowed = true ∧ r5.1.count = 1) := by
  have c1 : checkRateLimitWithMemory store t1 key 3 60000
      = ({ allowed := true, count := 1, resetTime := t1 + 60000 },
         mapSet store key { count := 1, resetTime := t1 + 60000 }) := by
    simp [checkRateLimitWithMemory, h0]
  have g1 := mapGet_set_self store key ({ count := 1, resetTime := t1 + 60000 } : RateRecord)
  have hn2 : ¬(t1 + 60000 < t2) := by omega
  have c2 : checkRateLimitWithMemory
        (mapSet store key { count := 1, resetTime := t1 + 60000 }) t2 key 3 60000
      = ({ allowed := true, count := 2, resetTime := t1 + 60000 },
         mapSet (mapSet store key { count := 1, resetTime := t1 + 60000 }) key
           { count := 2, resetTime := t1 + 60000 }) := by
    simp [checkRateLimitWithMemory, g1, hn2]
  have g2 := mapGet_set_self (mapSet store key { count := 1, resetTime := t1 + 60000 })
    key ({ count := 2, resetTime := t1 + 60000 } : RateRecord)
  have hn3 : ¬(t1 + 60000 < t3) := by omega
  have c3 : checkRateLimitWithMemory
        (mapSet (mapSet store key { count := 1, resetTime := t1 + 60000 }) key
          { count := 2, resetTime := t1 + 60000 }) t3 key 3 60000
      = ({ allowed := true, count := 3, resetTime := t1 + 60000 },
         mapSet (mapSet (mapSet store key { count := 1, resetTime := t1 + 60000 }) key
             { count := 2, resetTime := t1 + 60000 }) key
           { count := 3, resetTime := t1 + 60000 }) := by
    simp [checkRateLimitWithMemory, g2, hn3]
  have g3 := mapGet_set_self
    (mapSet (mapSet store key { count := 1, resetTime := t1 + 60000 }) key
      { count := 2, resetTime := t1 + 60000 })
    key ({ count := 3, resetTime := t1 + 60000 } : RateRecord)
  have hn4 : ¬(t1 + 60000 < t4) := by omega
  have c4 : checkRateLimitWithMemory
        (mapSet (mapSet (mapSet store key { count := 1, resetTime := t1 + 60000 }) key
            { count := 2, resetTime := t1 + 60000 }) key
          { count := 3, resetTime := t1 + 60000 }) t4 key 3 60000
      = ({ allowed := false, count := 4, resetTime := t1 + 60000 },
         mapSet (mapSet (mapSet (mapSet store key { count := 1, resetTime := t1 + 60000 })
               key { count := 2, resetTime := t1 + 60000 }) key
             { count := 3, resetTime := t1 + 60000 }) key
           { count := 4, resetTime := t1 + 60000 }) := by
    simp [checkRateLimitWithMemory, g3, hn4]
  have g4 := mapGet_set_self
    (mapSet (mapSet (mapSet store key { count := 1, resetTime := t1 + 60000 }) key
        { count := 2, resetTime := t1 + 60000 }) key
      { count := 3, resetTime := t1 + 60000 })
    key ({ count := 4, resetTime := t1 + 60000 } : RateRecord)
  have hn5 : t1 + 60000 < t5 := h5
  have c5 : checkRateLimitWithMemory
        (mapSet (mapSet (mapSet (mapSet store key { count := 1, resetTime := t1 + 60000 })
              key { count := 2, resetTime := t1 + 60000 }) key
            { count := 3, resetTime := t1 + 60000 }) key
          { count := 4, resetTime := t1 + 60000 }) t5 key 3 60000
      = ({ allowed := true, count := 1, resetTime := t5 + 60000 },
         mapSet (mapSet (mapSet (mapSet (mapSet store key
                  { count := 1, resetTime := t1 + 60000 }) key
                { count := 2, resetTime := t1 + 60000 }) key
              { count := 3, resetTime := t1 + 60000 }) key
            { count := 4, resetTime := t1 + 60000 }) key
           { count := 1, resetTime := t5 + 60000 }) := by
    simp [checkRateLimitWithMemory, g4, hn5]
  subst e1 e2 e3 e4 e5
  simp only [c1, c2, c3, c4, c5]
  refine ⟨by simp, by simp, by simp, ⟨by simp, ?_, ?_⟩, by simp⟩
  · simp [rateLimitRespond]
  · exact jsMathCeilDiv_pos _ (by omega)

/-- Witness for C5: the five-request schedule at concrete times 0, 1, 2, 3
inside the window and 60001 after it, on a fresh key. -/
theorem fixed_window_rate_limit_witness :
    ((checkRateLimitWithMemory [] 0 "c:/chat" 3 60000).1.allowed = true ∧
      (checkRateLimitWithMemory [] 0 "c:/chat" 3 60000).1.count = 1) ∧
    (((checkRateLimitWithMemory (checkRateLimitWithMemory [] 0 "c:/chat" 3 60000).2
        1 "c:/chat" 3 60000).1.allowed = true) ∧
      (checkRateLimitWithMemory (checkRateLimitWithMemory [] 0 "c:/chat" 3 60000).2
        1 "c:/chat" 3 60000).1.count = 2) ∧
    (((checkRateLimitWithMemory (checkRateLimitWithMemory
          (checkRateLimitWithMemory [] 0 "c:/chat" 3 60000).2
          1 "c:/chat" 3 60000).2 2 "c:/chat" 3 60000).1.allowed = true) ∧
      (checkRateLimitWithMemory (checkRateLimitWithMemory
          (checkRateLimitWithMemory [] 0 "c:/chat" 3 60000).2
          1 "c:/chat" 3 60000).2 2 "c:/chat" 3 60000).1.count = 3) ∧
    (((checkRateLimitWithMemory (checkRateLimitWithMemory (checkRateLimitWithMemory
          (checkRateLimitWithMemory [] 0 "c:/chat" 3 60000).2
          1 "c:/chat" 3 60000).2 2 "c:/chat" 3 60000).2 3 "c:/chat" 3 60000).1.allowed
        = false) ∧
      rateLimitRespond (checkRateLimitWithMemory (checkRateLimitWithMemory
          (checkRateLimitWithMemory (checkRateLimitWithMemory [] 0 "c:/chat" 3 60000).2
          1 "c:/chat" 3 60000).2 2 "c:/chat" 3 60000).2 3 "c:/chat" 3 60000).1 3
        = RLOutcome.reject 429 "RATE_LIMIT_EXCEEDED" (jsMathCeilDiv (0 + 60000 - 3) 1000) ∧
      0 < jsMathCeilDiv (0 + 60000 - 3) 1000) ∧
    (((checkRateLimitWithMemory (checkRateLimitWithMemory (checkRateLimitWithMemory
          (checkRateLimitWithMemory (checkRateLimitWithMemory [] 0 "c:/chat" 3 60000).2
          1 "c:/chat" 3 60000).2 2 "c:/chat" 3 60000).2 3 "c:/chat" 3 60000).2
          60001 "c:/chat" 3 60000).1.allowed = true) ∧
      (checkRateLimitWithMemory (checkRateLimitWithMemory (checkRateLimitWithMemory
          (checkRateLimitWithMemory (checkRateLimitWithMemory [] 0 "c:/chat" 3 60000).2
          1 "c:/chat" 3 60000).2 2 "c:/chat" 3 60000).2 3 "c:/chat" 3 60000).2
          60001 "c:/chat" 3 60000).1.count = 1) :=
  fixed_window_rate_limit [] "c:/chat" 0 1 2 3 60001 _ _ _ _ _ (by decide)
    rfl rfl rfl rfl rfl (by decide) (by decide) (by decide) (by decide) (by decide)

/-! ## Decimal printing / parsing lemmas -/

theorem digitChar_mem (k : Nat) :
    digitChar k ∈ ['0', '1', '2', '3', '4', '5', '6', '7', '8', '9'] := by
  rcases k with _|_|_|_|_|_|_|_|_|k <;> simp [digitChar]

theorem digitChar_spec (k : Nat) :
    (digitChar k).isDigit = true ∧ digitChar k ≠ ':' ∧ digitChar k ≠ '-' ∧
      digitChar k ≠ '+' ∧ (digitChar k).isWhitespace = false := by
  have h := digitChar_mem k
  simp only [List.mem_cons, List.not_mem_nil, or_false] at h
  rcases h with h|h|h|h|h|h|h|h|h|h <;> rw [h] <;>
    exact ⟨by decide, by decide, by decide, by decide, by decide⟩

theorem digitChar_toNat (k : Nat) (hk : k ≤ 9) : (digitChar k).toNat - 48 = k := by
  interval_cases k <;> decide

theorem natDigits_ne_nil (n : Nat) : natDigits n ≠ [] := by
  rw [natDigits]
  split <;> simp

theorem mem_natDigits (n : Nat) (c : Char) (hc : c ∈ natDigits n) :
    ∃ k, c = digitChar k := by
  induction n using Nat.strong_induction_on with
  | _ n ih =>
    rw [natDigits] at hc
    split at hc
    · simp at hc
      exact ⟨n, hc⟩
    · rename_i h
      rcases List.mem_append.mp hc with h1 | h2
      · exact ih (n / 10) (Nat.div_lt_self (by omega) (by omega)) h1
      · simp at h2
        exact ⟨n % 10, h2⟩

theorem digitsVal_append_single (l : List Char) (c : Char) :
    digitsVal (l ++ [c]) = digitsVal l * 10 + (c.toNat - 48) := by
  simp [digitsVal, List.foldl_append]

theorem digitsVal_natDigits (n : Nat) : digitsVal (natDigits n) = n := by
  induction n using Nat.strong_induction_on with
  | _ n ih =>
    rw [natDigits]
    split
    · rename_i h
      simp [digitsVal]
      rw [digitChar_toNat n (by omega)]
    · rename_i h
      rw [digitsVal_append_single, ih (n / 10) (Nat.div_lt_self (by omega) (by omega)),
        digitChar_toNat (n % 10) (by omega)]
      omega

theorem takeWhile_all {p : Char → Bool} (l : List Char) (h : ∀ c ∈ l, p c = true) :
    l.takeWhile p = l := by
  induction l with
  | nil => rfl
  | cons c rest ih =>
    rw [List.takeWhile_cons, h c (by simp)]
    simp [ih (fun x hx => h x (by simp [hx]))]

theorem natDigits_all_digits (m : Nat) : ∀ x ∈ natDigits m, x.isDigit = true := by
  intro x hx
  obtain ⟨j, rfl⟩ := mem_natDigits _ x hx
  exact (digitChar_spec j).1

theorem natDigits_not_isEmpty (m : Nat) : (natDigits m).isEmpty = false := by
  cases hx : natDigits m with
  | nil => exact absurd hx (natDigits_ne_nil _)
  | cons a b => rfl

theorem jsParseInt_intToStr (t : Int) : jsParseInt (intToStr t) = some t := by
  by_cases ht : t < 0
  · have hdata : (intToStr t).data = '-' :: natDigits t.natAbs := by
      simp [intToStr, ht]
    have hdrop : ('-' :: natDigits t.natAbs).dropWhile Char.isWhitespace
        = '-' :: natDigits t.natAbs := by
      rw [List.dropWhile_cons]
      simp
    simp only [jsParseInt, hdata, hdrop]
    rw [if_pos trivial, takeWhile_all _ (natDigits_all_digits _), natDigits_not_isEmpty,
      if_neg (by simp), digitsVal_natDigits]
    congr 1
    omega
  · have hdata : (intToStr t).data = natDigits t.toNat := by
      simp [intToStr, ht]
    obtain ⟨c, rest, hcr⟩ := List.exists_cons_of_ne_nil (natDigits_ne_nil t.toNat)
    obtain ⟨k, hk⟩ := mem_natDigits t.toNat c (by rw [hcr]; exact List.mem_cons_self c rest)
    have hspec := digitChar_spec k
    have hdrop : (natDigits t.toNat).dropWhile Char.isWhitespace = natDigits t.toNat := by
      rw [hcr, List.dropWhile_cons]
      have hw : c.isWhitespace = false := by rw [hk]; exact hspec.2.2.2.2
      simp [hw]
    have hcminus : ¬(c = '-') := by rw [hk]; exact hspec.2.2.1
    have hcplus : ¬(c = '+') := by rw [hk]; exact hspec.2.2.2.1
    have hdrop2 : (c :: rest).dropWhile Char.isWhitespace = c :: rest := by
      rw [← hcr]; exact hdrop
    simp only [jsParseInt, hdata, hcr, hdrop2]
    rw [if_neg hcminus, if_neg hcplus, ← hcr,
      takeWhile_all _ (natDigits_all_digits _), natDigits_not_isEmpty,
      if_neg (by simp), digitsVal_natDigits]
    congr 1
    omega

/-! ## Split / join lemmas -/

theorem splitChars_ne_nil (sep : Char) (l : List Char) : splitChars sep l ≠ [] := by
  cases l with
  | nil => simp [splitChars]
  | cons c cs =>
    rw [splitChars]
    cases hx : splitChars sep cs with
    | nil => simp
    | cons h t =>
      by_cases hc : c = sep <;> simp [hc]

theorem splitChars_cons_sep (sep : Char) (rest : List Char) :
    splitChars sep (sep :: rest) = [] :: splitChars sep rest := by
  rw [splitChars]
  cases hx : splitChars sep rest with
  | nil => exact absurd hx (splitChars_ne_nil sep rest)
  | cons h t => simp

theorem splitChars_cons_ne (sep c : Char) (rest : List Char) (hc : ¬(c = sep)) :
    splitChars sep (c :: rest)
      = (c :: (splitChars sep rest).headD []) :: (splitChars sep rest).tail := by
  rw [splitChars]
  cases hx : splitChars sep rest with
  | nil => exact absurd hx (splitChars_ne_nil sep rest)
  | cons h t => simp [hc]

theorem splitChars_append_no_sep (sep : Char) (a rest : List Char)
    (ha : ∀ c ∈ a, ¬(c = sep)) :
    splitChars sep (a ++ sep :: rest) = a :: splitChars sep rest := by
  induction a with
  | nil => simpa using splitChars_cons_sep sep rest
  | cons c a2 ih =>
    have hc : ¬(c = sep) := ha c (by simp)
    have ih2 := ih (fun x hx => ha x (by simp [hx]))
    rw [List.cons_append, splitChars_cons_ne sep c _ hc, ih2]
    simp

theorem joinChars_splitChars (sep : Char) (l : List Char) :
    joinChars sep (splitChars sep l) = l := by
  induction l with
  | nil => rfl
  | cons c cs ih =>
    cases hx : splitChars sep cs with
    | nil => exact absurd hx (splitChars_ne_nil sep cs)
    | cons h t =>
      simp only [splitChars, hx]
      by_cases hc : c = sep
      · subst hc
        rw [if_pos rfl]
        rw [hx] at ih
        simpa [joinChars] using ih
      · rw [if_neg hc]
        rw [hx] at ih
        cases t with
        | nil => simpa [joinChars] using ih
        | cons t1 t2 =>
          rw [joinChars] at ih ⊢
          rw [← ih]
          simp

/-! ## String plumbing -/

theorem strMk_data (s : String) : String.mk s.data = s := rfl

theorem str_data_append (a b : String) : (a ++ b).data = a.data ++ b.data := by
  cases a
  cases b
  rfl

theorem intToStr_no_colon (t : Int) : ∀ c ∈ (intToStr t).data, ¬(c = ':') := by
  intro c hc
  by_cases ht : t < 0
  · rw [show (intToStr t).data = '-' :: natDigits t.natAbs from by simp [intToStr, ht]] at hc
    rcases List.mem_cons.mp hc with rfl | hm
    · decide
    · obtain ⟨k, rfl⟩ := mem_natDigits _ c hm
      exact (digitChar_spec k).2.1
  · rw [show (intToStr t).data = natDigits t.toNat from by simp [intToStr, ht]] at hc
    obtain ⟨k, rfl⟩ := mem_natDigits _ c hc
    exact (digitChar_spec k).2.1

/-- Decomposition of the signed plaintext `"{ts}:{nonce}:{data}"` under the
JS split on `':'`: the first two parts are the timestamp string and the
nonce, and the remaining parts re-join to the data. -/
theorem jsSplit_plaintext (ts : Int) (nonce data : String)
    (hnc : ∀ c ∈ nonce.data, ¬(c = ':')) :
    jsSplit (intToStr ts ++ ":" ++ nonce ++ ":" ++ data) ':'
      = intToStr ts :: nonce :: (splitChars ':' data.data).map String.mk := by
  have hdata : (intToStr ts ++ ":" ++ nonce ++ ":" ++ data).data
      = (intToStr ts).data ++ ':' :: (nonce.data ++ ':' :: data.data) := by
    simp [str_data_append]
  rw [jsSplit, hdata,
    splitChars_append_no_sep ':' _ _ (intToStr_no_colon ts),
    splitChars_append_no_sep ':' _ _ hnc]
  simp [strMk_data]

/-- Evaluation of `verifySignatureWithNonce` on a token whose plaintext is
the well-formed `"{ts}:{nonce}:{data}"` produced by the signer: the
structural checks all pass and the outcome is decided by the freshness check
and then the replay guard. -/
theorem verifyWithNonce_wellformed (M : AESModel) (env : NonceEnv) (now : Int)
    (sig data : String) (maxAge ts : Int) (nonce : String)
    (hdec : M.decrypt sig = some (intToStr ts ++ ":" ++ nonce ++ ":" ++ data))
    (hnc : ∀ c ∈ nonce.data, ¬(c = ':')) :
    verifySignatureWithNonce M env now sig data maxAge
      = if now - ts < 0 ∨ now - ts > maxAge then ({ valid := false, nonce := none }, env)
        else verifyNonceStep env now nonce maxAge := by
  have hsplit := jsSplit_plaintext ts nonce data hnc
  simp only [verifySignatureWithNonce, hdec, hsplit]
  have hlen3 : ¬((intToStr ts :: nonce :: (splitChars ':' data.data).map String.mk).length < 3) := by
    have h1 := List.length_pos.mpr (splitChars_ne_nil ':' data.data)
    simp only [List.length_cons, List.length_map]
    omega
  rw [if_neg hlen3]
  simp only [List.headD_cons, List.drop_succ_cons, List.drop_zero, jsParseInt_intToStr]
  have horig : jsJoin ':' ((splitChars ':' data.data).map String.mk) = data := by
    rw [jsJoin, List.map_map,
      show (String.data ∘ String.mk) = fun (l : List Char) => l from rfl]
    rw [show List.map (fun (l : List Char) => l) (splitChars ':' data.data)
          = splitChars ':' data.data from List.map_id' _]
    rw [joinChars_splitChars]
  rw [horig, if_neg (fun h => h rfl)]
  by_cases h1 : now - ts < 0
  · simp [h1]
  · by_cases h2 : now - ts > maxAge
    · simp [h1, h2]
    · simp [h1, h2]

/-- On a fresh nonce, the replay-guard delegation succeeds regardless of the
backend in use (a Redis error fails open). -/
theorem verifyNonceStep_fresh (env : NonceEnv) (now : Int) (nonce : String)
    (maxAge : Int) (hmem : nonce ∉ env.memState)
    (hredis : redisHasLiveKey env.redisState now ("nonce:" ++ nonce) = false) :
    (verifyNonceStep env now nonce maxAge).1.valid = true := by
  rw [verifyNonceStep]
  cases hav : env.redisAvailable
  · simp [checkNonceWithMemory, hmem]
  · cases herr : env.redisError
    · simp [checkNonceWithRedis, hredis]
    · simp [checkNonceWithRedis]

/-! ## C2 -/

/-- C2: sign/verify round trip. For any payload, any fresh random IV, any
colon-free fresh nonce (as produced by `randomBytes(16).toString('hex')`),
and any cipher model, verifying the token produced by
`generateSignatureWithNonce` against the same payload succeeds when
`0 ≤ now - tsign ≤ maxAge`, and fails once `now - tsign > maxAge`. -/
theorem sign_verify_roundtrip (M : AESModel) (env : NonceEnv) (iv : String)
    (tsign tverify maxAge : Int) (nonce data : String)
    (hnc : ∀ c ∈ nonce.data, ¬(c = ':'))
    (hmem : nonce ∉ env.memState)
    (hredis : redisHasLiveKey env.redisState tverify ("nonce:" ++ nonce) = false) :
    (0 ≤ tverify - tsign → tverify - tsign ≤ maxAge →
      (verifySignatureWithNonce M env tverify
          (generateSignatureWithNonce M iv tsign nonce data none none) data
          maxAge).1.valid = true) ∧
    (maxAge < tverify - tsign →
      (verifySignatureWithNonce M env tverify
          (generateSignatureWithNonce M iv tsign nonce data none none) data
          maxAge).1.valid = false) := by
  have hgen : generateSignatureWithNonce M iv tsign nonce data none none
      = M.encrypt iv (intToStr tsign ++ ":" ++ nonce ++ ":" ++ data) := rfl
  have hdec : M.decrypt (generateSignatureWithNonce M iv tsign nonce data none none)
      = some (intToStr tsign ++ ":" ++ nonce ++ ":" ++ data) := by
    rw [hgen, M.decrypt_encrypt]
  have heval := verifyWithNonce_wellformed M env tverify
    (generateSignatureWithNonce M iv tsign nonce data none none) data maxAge tsign nonce
    hdec hnc
  constructor
  · intro hpos hle
    rw [heval, if_neg (by omega)]
    exact verifyNonceStep_fresh env tverify nonce maxAge hmem hredis
  · intro hgt
    rw [heval, if_pos (by omega)]

/-- Witness for C2: concrete round trip through the concrete cipher model,
verified 10 ms after signing with a 100 ms max age, and the expired
direction 200 ms after signing. -/
theorem sign_verify_roundtrip_witness :
    ((verifySignatureWithNonce plainAES
        { redisAvailable := false, redisError := false, redisState := [], memState := [] }
        10 (generateSignatureWithNonce plainAES "" 0 "abc" "hello" none none) "hello"
        100).1.valid = true) ∧
    ((verifySignatureWithNonce plainAES
        { redisAvailable := false, redisError := false, redisState := [], memState := [] }
        200 (generateSignatureWithNonce plainAES "" 0 "abc" "hello" none none) "hello"
        100).1.valid = false) :=
  ⟨(sign_verify_roundtrip plainAES _ "" 0 10 100 "abc" "hello" (by decide) (by simp)
      (by decide)).1 (by decide) (by decide),
   (sign_verify_roundtrip plainAES _ "" 0 200 100 "abc" "hello" (by decide) (by simp)
      (by decide)).2 (by decide)⟩

/-! ## C3 -/

/-- C3: rejection conditions of `verifySignatureWithNonce`. (a) Fewer than 3
colon-separated parts in the decrypted plaintext rejects; (b) a recovered
payload different from the expected payload rejects (whatever the timestamp
and nonce); (c) a parseable timestamp whose age is negative or exceeds
`maxAge` rejects; (d) otherwise (3 or more parts, payload match, parseable
in-window timestamp) the verifier delegates to the replay guard with the
recovered nonce. -/
theorem verify_rejection_conditions :
    (∀ (M : AESModel) (env : NonceEnv) (now : Int) (sig data : String)
       (maxAge : Int) (d : String), M.decrypt sig = some d →
       (jsSplit d ':').length < 3 →
       verifySignatureWithNonce M env now sig data maxAge
         = ({ valid := false, nonce := none }, env)) ∧
    (∀ (M : AESModel) (env : NonceEnv) (now : Int) (sig data : String)
       (maxAge : Int) (d : String), M.decrypt sig = some d →
       jsJoin ':' ((jsSplit d ':').drop 2) ≠ data →
       verifySignatureWithNonce M env now sig data maxAge
         = ({ valid := false, nonce := none }, env)) ∧
    (∀ (M : AESModel) (env : NonceEnv) (now : Int) (sig data : String)
       (maxAge : Int) (d : String) (t : Int), M.decrypt sig = some d →
       ¬((jsSplit d ':').length < 3) →
       jsJoin ':' ((jsSplit d ':').drop 2) = data →
       jsParseInt ((jsSplit d ':').headD "") = some t →
       (now - t < 0 ∨ now - t > maxAge) →
       verifySignatureWithNonce M env now sig data maxAge
         = ({ valid := false, nonce := none }, env)) ∧
    (∀ (M : AESModel) (env : NonceEnv) (now : Int) (sig data : String)
       (maxAge : Int) (d : String) (t : Int), M.decrypt sig = some d →
       ¬((jsSplit d ':').length < 3) →
       jsJoin ':' ((jsSplit d ':').drop 2) = data →
       jsParseInt ((jsSplit d ':').headD "") = some t →
       0 ≤ now - t → now - t ≤ maxAge →
       verifySignatureWithNonce M env now sig data maxAge
         = verifyNonceStep env now (((jsSplit d ':').drop 1).headD "") maxAge) := by
  refine ⟨?_, ?_, ?_, ?_⟩
  · intro M env now sig data maxAge d hdec hlen
    simp only [verifySignatureWithNonce, hdec]
    rw [if_pos hlen]
  · intro M env now sig data maxAge d hdec hmis
    simp only [verifySignatureWithNonce, hdec]
    by_cases hlen : (jsSplit d ':').length < 3
    · rw [if_pos hlen]
    · rw [if_neg hlen, if_pos hmis]
  · intro M env now sig data maxAge d t hdec hlen hmatch hts hage
    simp only [verifySignatureWithNonce, hdec, hts]
    rw [if_neg hlen, hmatch, if_neg (fun h => h rfl)]
    rcases hage with h | h
    · simp [h]
    · simp [h]
  · intro M env now sig data maxAge d t hdec hlen hmatch hts h0 h1
    simp only [verifySignatureWithNonce, hdec, hts]
    rw [if_neg hlen, hmatch, if_neg (fun h => h rfl)]
    simp [show ¬(now - t < 0) from by omega, show ¬(now - t > maxAge) from by omega]

/-- Witness for C3: each rejection condition exercised on a concrete token
through the concrete cipher model. -/
theorem verify_rejection_conditions_witness :
    (verifySignatureWithNonce plainAES
        { redisAvailable := false, redisError := false, redisState := [], memState := [] }
        0 "ab" "ab" 100
      = ({ valid := false, nonce := none },
         { redisAvailable := false, redisError := false, redisState := [], memState := [] })) ∧
    (verifySignatureWithNonce plainAES
        { redisAvailable := false, redisError := false, redisState := [], memState := [] }
        0 "1:n:x" "y" 100
      = ({ valid := false, nonce := none },
         { redisAvailable := false, redisError := false, redisState := [], memState := [] })) ∧
    (verifySignatureWithNonce plainAES
        { redisAvailable := false, redisError := false, redisState := [], memState := [] }
        1000 "5:n:x" "x" 10
      = ({ valid := false, nonce := none },
         { redisAvailable := false, redisError := false, redisState := [], memState := [] })) ∧
    (verifySignatureWithNonce plainAES
        { redisAvailable := false, redisError := false, redisState := [], memState := [] }
        7 "5:n:x" "x" 10
      = verifyNonceStep
          { redisAvailable := false, redisError := false, redisState := [], memState := [] }
          7 "n" 10) :=
  ⟨verify_rejection_conditions.1 plainAES _ 0 "ab" "ab" 100 "ab" rfl (by decide),
   verify_rejection_conditions.2.1 plainAES _ 0 "1:n:x" "y" 100 "1:n:x" rfl (by decide),
   verify_rejection_conditions.2.2.1 plainAES _ 1000 "5:n:x" "x" 10 "5:n:x" 5 rfl
     (by decide) (by decide) (by decide) (by decide),
   verify_rejection_conditions.2.2.2 plainAES _ 7 "5:n:x" "x" 10 "5:n:x" 5 rfl
     (by decide) (by decide) (by decide) (by decide) (by decide)⟩

/-! ## C10 -/

/-- C10: a non-parseable timestamp is not rejected by the freshness check.
When `parseInt` yields `NaN` (modelled as `none`), both comparisons in
`age < 0 || age > maxAge` are false, so (i) `verifySignature` accepts a
token whose plaintext has at least 2 parts, a non-numeric first part and a
matching payload, and (ii) `verifySignatureWithNonce` proceeds past the age
check straight to the replay-guard nonce check under the analogous
conditions. -/
theorem nan_timestamp_passes_age_check :
    (∀ (M : AESModel) (now : Int) (sig data : String) (maxAge : Int) (d : String),
       M.decrypt sig = some d →
       ¬((jsSplit d ':').length < 2) →
       jsParseInt ((jsSplit d ':').headD "") = none →
       jsJoin ':' ((jsSplit d ':').drop 1) = data →
       verifySignature M now sig data maxAge = true) ∧
    (∀ (M : AESModel) (env : NonceEnv) (now : Int) (sig data : String)
       (maxAge : Int) (d : String), M.decrypt sig = some d →
       ¬((jsSplit d ':').length < 3) →
       jsParseInt ((jsSplit d ':').headD "") = none →
       jsJoin ':' ((jsSplit d ':').drop 2) = data →
       verifySignatureWithNonce M env now sig data maxAge
         = verifyNonceStep env now (((jsSplit d ':').drop 1).headD "") maxAge) := by
  constructor
  · intro M now sig data maxAge d hdec hlen hts hmatch
    simp only [verifySignature, hdec, hts]
    rw [if_neg hlen, hmatch, if_neg (fun h => h rfl)]
    simp
  · intro M env now sig data maxAge d hdec hlen hts hmatch
    simp only [verifySignatureWithNonce, hdec, hts]
    rw [if_neg hlen, hmatch, if_neg (fun h => h rfl)]
    simp

/-- Witness for C10: `"xx:data"` carries no parseable timestamp yet
`verifySignature` accepts it, and `"xx:n:data"` reaches the nonce check. -/
theorem nan_timestamp_passes_age_check_witness :
    verifySignature plainAES 1000 "xx:data" "data" 400 = true ∧
    verifySignatureWithNonce plainAES
        { redisAvailable := false, redisError := false, redisState := [], memState := [] }
        1000 "xx:n:data" "data" 400
      = verifyNonceStep
          { redisAvailable := false, redisError := false, redisState := [], memState := [] }
          1000 "n" 400 :=
  ⟨nan_timestamp_passes_age_check.1 plainAES 1000 "xx:data" "data" 400 "xx:data" rfl
     (by decide) (by decide) (by decide),
   nan_timestamp_passes_age_check.2 plainAES _ 1000 "xx:n:data" "data" 400 "xx:n:data" rfl
     (by decide) (by decide) (by decide)⟩

/-! ## C9 -/

theorem utf8EncodeUnits_ascii (l : List Nat) (h : ∀ u ∈ l, u < 0x80) :
    (utf8EncodeUnits l).length = l.length := by
  induction l with
  | nil => rfl
  | cons u rest ih =>
    have hstep : utf8EncodeUnits (u :: rest) = u :: utf8EncodeUnits rest := by
      conv_lhs => rw [utf8EncodeUnits.eq_def]
      simp [h u (by simp)]
    rw [hstep]
    simp [ih (fun x hx => h x (by simp [hx]))]

/-- C9 (amended): `getSecretKey` on a non-empty secret returns the SHA-256
digest of the secret's UTF-8 bytes — 32 bytes — when the secret is shorter
than 32 UTF-16 code units, and the UTF-8 re-encoding of the first 32 code
units otherwise, which is exactly 32 bytes when those units are ASCII (but
longer when they are not — see the counterexample). -/
theorem getSecretKey_length_by_branch (sha256 : List Nat → List Nat)
    (hsha : ∀ b, (sha256 b).length = 32) (units : List Nat) (hne : units ≠ []) :
    (units.length < 32 →
      getSecretKey sha256 (some units) = Except.ok (sha256 (utf8EncodeUnits units)) ∧
      (sha256 (utf8EncodeUnits units)).length = 32) ∧
    (32 ≤ units.length → (∀ u ∈ units.take 32, u < 0x80) →
      getSecretKey sha256 (some units) = Except.ok (utf8EncodeUnits (units.take 32)) ∧
      (utf8EncodeUnits (units.take 32)).length = 32) := by
  have hempty : units.isEmpty = false := by
    cases units with
    | nil => exact absurd rfl hne
    | cons a b => rfl
  constructor
  · intro hlt
    refine ⟨?_, hsha _⟩
    simp [getSecretKey, hempty, hlt]
  · intro hge hascii
    refine ⟨?_, ?_⟩
    · simp [getSecretKey, hempty]
      intro h
      omega
    · rw [utf8EncodeUnits_ascii _ hascii, List.length_take]
      omega

/-- Witness for C9 (amended): a one-character ASCII secret goes through the
hash branch and yields a 32-byte key (for the abstract digest function
`fun _ => List.replicate 32 0`). -/
theorem getSecretKey_length_by_branch_witness :
    getSecretKey (fun _ => List.replicate 32 0) (some [65])
        = Except.ok ((fun (_ : List Nat) => List.replicate 32 (0 : Nat)) (utf8EncodeUnits [65])) ∧
    ((fun (_ : List Nat) => List.replicate 32 (0 : Nat)) (utf8EncodeUnits [65])).length = 32 :=
  (getSecretKey_length_by_branch (fun _ => List.replicate 32 0)
      (fun b => by simp) [65] (by decide)).1 (by decide)

/-- Counterexample to C9 as stated: a secret of 32 UTF-16 code units that
are all `é` (U+00E9, 2 UTF-8 bytes each) takes the truncation branch and
yields a 64-byte key, not 32 bytes. (The truncation branch never calls the
digest, so any stand-in digest function exhibits the behaviour.) -/
theorem getSecretKey_64_bytes_on_wide_secret :
    ∃ bytes, getSecretKey (fun b => b) (some (List.replicate 32 233)) = Except.ok bytes ∧
      bytes.length = 64 :=
  ⟨utf8EncodeUnits (List.replicate 32 233), rfl, by decide⟩

end LLMGateway
